import Mathlib

/-!
Verification of the cart_prod crate: lazy homogeneous Cartesian-product
iterators Hom2FCartProd and Hom3FCartProd.

Source iterators are modelled as finite lists of their remaining elements:
pulling the next item is head/tail decomposition, cloning an iterator is
sharing the list, and peeking reveals the head without removing it (for a
list-backed iterator the one-slot Peekable cache is invisible at the level
of the remaining element sequence).  The usize arithmetic of size_hint is
modelled on Nat with the 64-bit bound made explicit in saturating and
checked multiplication.  The stateful next method of each iterator becomes
a pure step function returning the emitted tuple (if any) together with the
successor state, so that mutation on the None paths is captured exactly.
-/

set_option maxHeartbeats 1000000

/-- Largest value of the 64-bit usize type. -/
def usizeMax : Nat := 2 ^ 64 - 1

/-- Model of usize saturating multiplication: clamps at usizeMax. -/
def saturatingMul (a b : Nat) : Nat := min (a * b) usizeMax

/-- Model of usize checked multiplication: none on overflow. -/
def checkedMul (a b : Nat) : Option Nat :=
  if a * b ≤ usizeMax then some (a * b) else none

/-- The exact size hint a finite list-backed iterator reports. -/
def listSizeHint {α : Type} (l : List α) : Nat × Option Nat := (l.length, some l.length)

/-- State of Hom2FCartProd (src/specs/hom2fcartprod.rs): the peekable cursor
over the first iterator, the live cursor over the second, and the saved
origin copy of the second, each as its remaining element sequence. -/
structure Hom2FCartProd (α : Type) where
  curr_it1 : List α
  curr_it2 : List α
  orig_it2 : List α
deriving DecidableEq, Repr

/-- Hom2FCartProd::new: wires up the initial state, cloning iterator 2 into
a cursor and an origin; no element is pulled. -/
def Hom2FCartProd.new {α : Type} (it1 it2 : List α) : Hom2FCartProd α :=
  ⟨it1, it2, it2⟩

/-- Hom2FCartProd::next, as a pure step: the emitted pair (or none) and the
state the call leaves behind.  Mirrors the source: peek cursor 1 (fail if
exhausted), try to pull from cursor 2; on failure consume cursor 1, peek its
next element, reset cursor 2 from the origin and pull its first element. -/
def Hom2FCartProd.next {α : Type} : Hom2FCartProd α → Option (α × α) × Hom2FCartProd α
  | ⟨[], c2, o2⟩ => (none, ⟨[], c2, o2⟩)
  | ⟨e1 :: t1, e2 :: t2, o2⟩ => (some (e1, e2), ⟨e1 :: t1, t2, o2⟩)
  | ⟨_ :: [], [], o2⟩ => (none, ⟨[], [], o2⟩)
  | ⟨_ :: e1s :: t1, [], []⟩ => (none, ⟨e1s :: t1, [], []⟩)
  | ⟨_ :: e1s :: t1, [], f :: r⟩ => (some (e1s, f), ⟨e1s :: t1, r, f :: r⟩)

/-- Hom2FCartProd::size_hint combined from two component hints, exactly as
the source computes it: saturating product of the minima, checked product of
the maxima with unknown propagated. -/
def hom2SizeHintOf (h1 h2 : Nat × Option Nat) : Nat × Option Nat :=
  (saturatingMul h1.1 h2.1,
    match h1.2, h2.2 with
    | some m1, some m2 => checkedMul m1 m2
    | _, _ => none)

/-- Hom2FCartProd::size_hint at a state: combines the two live cursors'
own hints. -/
def Hom2FCartProd.size_hint {α : Type} (s : Hom2FCartProd α) : Nat × Option Nat :=
  hom2SizeHintOf (listSizeHint s.curr_it1) (listSizeHint s.curr_it2)

/-- Drive the iterator: collect emitted tuples until next first returns
none, with a fuel bound on the number of calls. -/
def Hom2FCartProd.run {α : Type} : Nat → Hom2FCartProd α → List (α × α)
  | 0, _ => []
  | fuel + 1, s =>
    match s.next with
    | (none, _) => []
    | (some p, s2) => p :: Hom2FCartProd.run fuel s2

/-- Apply next k times, keeping only the evolving state. -/
def Hom2FCartProd.skip {α : Type} : Nat → Hom2FCartProd α → Hom2FCartProd α
  | 0, s => s
  | k + 1, s => Hom2FCartProd.skip k (s.next).2

/-- Termination measure: an upper bound on the number of next calls that can
still emit a tuple from a given state. -/
def hom2Measure {α : Type} (s : Hom2FCartProd α) : Nat :=
  s.curr_it1.length * (s.orig_it2.length + 1) + s.curr_it2.length

/-- Reference two-fold lexicographic Cartesian product of two lists:
position 1 most significant, position 2 varying fastest. -/
def cartProd2 {α : Type} (l1 l2 : List α) : List (α × α) :=
  l1.flatMap (fun a => l2.map (fun b => (a, b)))

/-- The tuples a Hom2FCartProd state has yet to emit: the rest of the
current row, then full rows (from the origin) for the rest of cursor 1. -/
def hom2Remaining {α : Type} (s : Hom2FCartProd α) : List (α × α) :=
  match s.curr_it1 with
  | [] => []
  | a :: t1 =>
    s.curr_it2.map (fun b => (a, b)) ++ t1.flatMap (fun x => s.orig_it2.map (fun b => (x, b)))

/-- Flat-mapping a function that always returns the empty list gives the
empty list. -/
theorem flatMap_nil_fun {α β : Type} (l : List α) :
    (l.flatMap fun _ => ([] : List β)) = [] := by
  induction l with
  | nil => rfl
  | cons a t ih => simp [List.flatMap_cons, ih]

/-- Driving Hom2FCartProd with enough fuel from any state collects exactly
the tuples the state has yet to emit. -/
theorem hom2_run_eq_remaining {α : Type} (fuel : Nat) :
    ∀ s : Hom2FCartProd α, hom2Measure s ≤ fuel →
      Hom2FCartProd.run fuel s = hom2Remaining s := by
  induction fuel with
  | zero =>
    intro s h
    obtain ⟨c1, c2, o2⟩ := s
    have h1 : c1.length * 1 ≤ c1.length * (o2.length + 1) :=
      Nat.mul_le_mul_left c1.length (Nat.succ_le_succ (Nat.zero_le o2.length))
    simp only [hom2Measure] at h
    have hc : c1 = [] := List.length_eq_zero.mp (by omega)
    subst hc
    simp [Hom2FCartProd.run, hom2Remaining]
  | succ n ih =>
    intro s h
    obtain ⟨c1, c2, o2⟩ := s
    cases c1 with
    | nil => simp [Hom2FCartProd.run, Hom2FCartProd.next, hom2Remaining]
    | cons a t1 =>
      cases c2 with
      | cons b t2 =>
        have hm : hom2Measure ⟨a :: t1, t2, o2⟩ ≤ n := by
          simp only [hom2Measure, List.length_cons] at h ⊢
          omega
        have ihr := ih ⟨a :: t1, t2, o2⟩ hm
        simp [Hom2FCartProd.run, Hom2FCartProd.next, ihr, hom2Remaining]
      | nil =>
        cases t1 with
        | nil =>
          simp [Hom2FCartProd.run, Hom2FCartProd.next, hom2Remaining]
        | cons a2 t12 =>
          cases o2 with
          | nil =>
            simp [Hom2FCartProd.run, Hom2FCartProd.next, hom2Remaining, flatMap_nil_fun]
          | cons f r =>
            have hm : hom2Measure ⟨a2 :: t12, r, f :: r⟩ ≤ n := by
              simp only [hom2Measure, List.length_cons] at h ⊢
              have hx : (t12.length + 1 + 1) * (r.length + 1 + 1)
                  = (t12.length + 1) * (r.length + 1 + 1) + (r.length + 1 + 1) := by ring
              omega
            have ihr := ih ⟨a2 :: t12, r, f :: r⟩ hm
            simp [Hom2FCartProd.run, Hom2FCartProd.next, ihr, hom2Remaining, List.flatMap_cons]

/-- The reference product has n1 times n2 tuples. -/
theorem cartProd2_length {α : Type} (l1 l2 : List α) :
    (cartProd2 l1 l2).length = l1.length * l2.length := by
  induction l1 with
  | nil => simp [cartProd2]
  | cons a t ih =>
    simp only [cartProd2, List.flatMap_cons, List.length_append, List.length_map,
      List.length_cons] at ih ⊢
    rw [ih]
    ring

/-- At a freshly constructed state the tuples yet to be emitted are exactly
the reference product. -/
theorem hom2_remaining_new {α : Type} (l1 l2 : List α) :
    hom2Remaining (Hom2FCartProd.new l1 l2) = cartProd2 l1 l2 := by
  cases l1 with
  | nil => rfl
  | cons a t1 => simp [hom2Remaining, Hom2FCartProd.new, cartProd2, List.flatMap_cons]

/-- State of Hom3FCartProd (src/specs/hom3fcartprod.rs): peekable cursors
over iterators 1 and 2, the live cursor over iterator 3, and saved origin
copies of iterators 2 and 3, each as its remaining element sequence. -/
structure Hom3FCartProd (α : Type) where
  curr_it1 : List α
  curr_it2 : List α
  curr_it3 : List α
  orig_it2 : List α
  orig_it3 : List α
deriving DecidableEq, Repr

/-- Hom3FCartProd::new: wires up the initial state, cloning iterators 2 and
3 into cursors and origins; no element is pulled. -/
def Hom3FCartProd.new {α : Type} (it1 it2 it3 : List α) : Hom3FCartProd α :=
  ⟨it1, it2, it3, it2, it3⟩

/-- Hom3FCartProd::next, as a pure step.  Mirrors the source: peek cursors 1
and 2 (fail if either is exhausted), try to pull from cursor 3; on failure
consume cursor 2 and, if it still peeks, reset cursor 3 from its origin and
pull; otherwise consume cursor 1 and, if it still peeks, reset cursors 3 and
2 from their origins, peek cursor 2 and pull from cursor 3.  The successor
state records exactly the mutations each source path performs, including on
the paths that return none. -/
def Hom3FCartProd.next {α : Type} :
    Hom3FCartProd α → Option (α × α × α) × Hom3FCartProd α
  | ⟨[], c2, c3, o2, o3⟩ => (none, ⟨[], c2, c3, o2, o3⟩)
  | ⟨e1 :: t1, [], c3, o2, o3⟩ => (none, ⟨e1 :: t1, [], c3, o2, o3⟩)
  | ⟨e1 :: t1, e2 :: t2, e3 :: t3, o2, o3⟩ =>
    (some (e1, e2, e3), ⟨e1 :: t1, e2 :: t2, t3, o2, o3⟩)
  | ⟨e1 :: t1, _ :: e2s :: t2, [], o2, []⟩ => (none, ⟨e1 :: t1, e2s :: t2, [], o2, []⟩)
  | ⟨e1 :: t1, _ :: e2s :: t2, [], o2, f3 :: r3⟩ =>
    (some (e1, e2s, f3), ⟨e1 :: t1, e2s :: t2, r3, o2, f3 :: r3⟩)
  | ⟨_ :: [], _ :: [], [], o2, o3⟩ => (none, ⟨[], [], [], o2, o3⟩)
  | ⟨_ :: e1s :: t1, _ :: [], [], [], o3⟩ => (none, ⟨e1s :: t1, [], o3, [], o3⟩)
  | ⟨_ :: e1s :: t1, _ :: [], [], f2 :: r2, []⟩ =>
    (none, ⟨e1s :: t1, f2 :: r2, [], f2 :: r2, []⟩)
  | ⟨_ :: e1s :: t1, _ :: [], [], f2 :: r2, f3 :: r3⟩ =>
    (some (e1s, f2, f3), ⟨e1s :: t1, f2 :: r2, r3, f2 :: r2, f3 :: r3⟩)

/-- Hom3FCartProd::size_hint combined from three component hints, exactly as
the source computes it: a left fold of saturating multiplication over the
minima starting at 1, and a left fold of checked multiplication over the
maxima starting at some 1, with unknown propagated. -/
def hom3SizeHintOf (h1 h2 h3 : Nat × Option Nat) : Nat × Option Nat :=
  ([h1.1, h2.1, h3.1].foldl (fun prod x => saturatingMul prod x) 1,
    [h1.2, h2.2, h3.2].foldl
      (fun opt_prod opt_x =>
        match opt_x with
        | some x => opt_prod.bind (fun prod => checkedMul prod x)
        | none => none)
      (some 1))

/-- Hom3FCartProd::size_hint at a state: combines the three live cursors'
own hints. -/
def Hom3FCartProd.size_hint {α : Type} (s : Hom3FCartProd α) : Nat × Option Nat :=
  hom3SizeHintOf (listSizeHint s.curr_it1) (listSizeHint s.curr_it2)
    (listSizeHint s.curr_it3)

/-- Drive the iterator: collect emitted tuples until next first returns
none, with a fuel bound on the number of calls. -/
def Hom3FCartProd.run {α : Type} : Nat → Hom3FCartProd α → List (α × α × α)
  | 0, _ => []
  | fuel + 1, s =>
    match s.next with
    | (none, _) => []
    | (some p, s2) => p :: Hom3FCartProd.run fuel s2

/-- Apply next k times, keeping only the evolving state. -/
def Hom3FCartProd.skip {α : Type} : Nat → Hom3FCartProd α → Hom3FCartProd α
  | 0, s => s
  | k + 1, s => Hom3FCartProd.skip k (s.next).2

/-- Termination measure: an upper bound on the number of next calls that can
still emit a tuple from a given state. -/
def hom3Measure {α : Type} (s : Hom3FCartProd α) : Nat :=
  s.curr_it1.length * ((s.orig_it2.length + 1) * (s.orig_it3.length + 1)) +
    s.curr_it2.length * (s.orig_it3.length + 1) + s.curr_it3.length

/-- Reference three-fold lexicographic Cartesian product of three lists:
position 1 most significant, position 3 varying fastest. -/
def cartProd3 {α : Type} (l1 l2 l3 : List α) : List (α × α × α) :=
  l1.flatMap (fun a => l2.flatMap (fun b => l3.map (fun c => (a, b, c))))

/-- The tuples a Hom3FCartProd state has yet to emit: the rest of the
current innermost row, then rows from origin 3 for the rest of cursor 2,
then full planes from origins 2 and 3 for the rest of cursor 1. -/
def hom3Remaining {α : Type} (s : Hom3FCartProd α) : List (α × α × α) :=
  match s.curr_it1, s.curr_it2 with
  | [], _ => []
  | _ :: _, [] => []
  | a :: t1, b :: t2 =>
    s.curr_it3.map (fun c => (a, b, c)) ++
      t2.flatMap (fun y => s.orig_it3.map (fun c => (a, y, c))) ++
      t1.flatMap (fun x =>
        s.orig_it2.flatMap (fun y => s.orig_it3.map (fun c => (x, y, c))))

/-- Driving Hom3FCartProd with enough fuel from any state collects exactly
the tuples the state has yet to emit. -/
theorem hom3_run_eq_remaining {α : Type} (fuel : Nat) :
    ∀ s : Hom3FCartProd α, hom3Measure s ≤ fuel →
      Hom3FCartProd.run fuel s = hom3Remaining s := by
  induction fuel with
  | zero =>
    intro s h
    obtain ⟨c1, c2, c3, o2, o3⟩ := s
    have h1 : c1.length * 1 ≤ c1.length * ((o2.length + 1) * (o3.length + 1)) :=
      Nat.mul_le_mul_left c1.length
        (Nat.mul_pos (Nat.succ_pos o2.length) (Nat.succ_pos o3.length))
    simp only [hom3Measure] at h
    have hc : c1 = [] := List.length_eq_zero.mp (by omega)
    subst hc
    simp [Hom3FCartProd.run, hom3Remaining]
  | succ n ih =>
    intro s h
    obtain ⟨c1, c2, c3, o2, o3⟩ := s
    cases c1 with
    | nil => simp [Hom3FCartProd.run, Hom3FCartProd.next, hom3Remaining]
    | cons e1 t1 =>
      cases c2 with
      | nil => simp [Hom3FCartProd.run, Hom3FCartProd.next, hom3Remaining]
      | cons e2 t2 =>
        cases c3 with
        | cons e3 t3 =>
          have hm : hom3Measure ⟨e1 :: t1, e2 :: t2, t3, o2, o3⟩ ≤ n := by
            simp only [hom3Measure, List.length_cons] at h ⊢
            omega
          have ihr := ih _ hm
          simp [Hom3FCartProd.run, Hom3FCartProd.next, ihr, hom3Remaining]
        | nil =>
          cases t2 with
          | cons e2s t2x =>
            cases o3 with
            | nil =>
              simp [Hom3FCartProd.run, Hom3FCartProd.next, hom3Remaining, flatMap_nil_fun]
            | cons f3 r3 =>
              have hm : hom3Measure ⟨e1 :: t1, e2s :: t2x, r3, o2, f3 :: r3⟩ ≤ n := by
                simp only [hom3Measure, List.length_cons] at h ⊢
                have hx : (t2x.length + 1 + 1) * (r3.length + 1 + 1)
                    = (t2x.length + 1) * (r3.length + 1 + 1) + (r3.length + 1 + 1) := by
                  ring
                omega
              have ihr := ih _ hm
              simp [Hom3FCartProd.run, Hom3FCartProd.next, ihr, hom3Remaining,
                List.flatMap_cons]
          | nil =>
            cases t1 with
            | nil =>
              simp [Hom3FCartProd.run, Hom3FCartProd.next, hom3Remaining]
            | cons e1s t1x =>
              cases o2 with
              | nil =>
                simp [Hom3FCartProd.run, Hom3FCartProd.next, hom3Remaining, flatMap_nil_fun]
              | cons f2 r2 =>
                cases o3 with
                | nil =>
                  simp [Hom3FCartProd.run, Hom3FCartProd.next, hom3Remaining,
                    flatMap_nil_fun]
                | cons f3 r3 =>
                  have hm : hom3Measure
                      ⟨e1s :: t1x, f2 :: r2, r3, f2 :: r2, f3 :: r3⟩ ≤ n := by
                    simp only [hom3Measure, List.length_cons] at h ⊢
                    have hx1 : (t1x.length + 1 + 1) *
                          ((r2.length + 1 + 1) * (r3.length + 1 + 1))
                        = (t1x.length + 1) * ((r2.length + 1 + 1) * (r3.length + 1 + 1))
                          + (r2.length + 1 + 1) * (r3.length + 1 + 1) := by ring
                    have hx2 : (r2.length + 1 + 1) * (r3.length + 1 + 1)
                        = (r2.length + 1) * (r3.length + 1 + 1) + (r3.length + 1 + 1) := by
                      ring
                    omega
                  have ihr := ih _ hm
                  simp [Hom3FCartProd.run, Hom3FCartProd.next, ihr, hom3Remaining,
                    List.flatMap_cons]

/-- Length of one plane of the three-fold product. -/
theorem plane_length {α β : Type} (a : α) (l2 l3 : List α) (f : α → α → α → β) :
    (l2.flatMap fun b => l3.map fun c => f a b c).length = l2.length * l3.length := by
  induction l2 with
  | nil => simp
  | cons b tb ihb =>
    simp only [List.flatMap_cons, List.length_append, List.length_map,
      List.length_cons] at ihb ⊢
    rw [ihb]
    ring

/-- The three-fold reference product has n1 times n2 times n3 tuples. -/
theorem cartProd3_length {α : Type} (l1 l2 l3 : List α) :
    (cartProd3 l1 l2 l3).length = l1.length * l2.length * l3.length := by
  induction l1 with
  | nil => simp [cartProd3]
  | cons a t ih =>
    simp only [cartProd3, List.flatMap_cons, List.length_append, List.length_cons]
      at ih ⊢
    rw [ih, plane_length a l2 l3 (fun x y z => (x, y, z))]
    ring

/-- At a freshly constructed state the tuples yet to be emitted are exactly
the three-fold reference product. -/
theorem hom3_remaining_new {α : Type} (l1 l2 l3 : List α) :
    hom3Remaining (Hom3FCartProd.new l1 l2 l3) = cartProd3 l1 l2 l3 := by
  cases l1 with
  | nil => rfl
  | cons a t1 =>
    cases l2 with
    | nil => simp [hom3Remaining, Hom3FCartProd.new, cartProd3, flatMap_nil_fun]
    | cons b t2 =>
      simp [hom3Remaining, Hom3FCartProd.new, cartProd3, List.flatMap_cons,
        List.append_assoc]

/-- C1: for every pair of finite source sequences, Hom2FCartProd next,
called until it first returns none (any sufficient fuel), yields exactly the
reference lexicographic Cartesian product, position 1 most significant and
position 2 varying fastest, with exactly n1 * n2 tuples (zero when either
factor is empty; repeats in a source repeat in the output). -/
theorem hom2_enumerates_cartesian_product {α : Type} (l1 l2 : List α) (fuel : Nat)
    (h : hom2Measure (Hom2FCartProd.new l1 l2) ≤ fuel) :
    Hom2FCartProd.run fuel (Hom2FCartProd.new l1 l2) = cartProd2 l1 l2 ∧
      (Hom2FCartProd.run fuel (Hom2FCartProd.new l1 l2)).length =
        l1.length * l2.length := by
  have e := hom2_run_eq_remaining fuel (Hom2FCartProd.new l1 l2) h
  rw [hom2_remaining_new] at e
  exact ⟨e, by rw [e, cartProd2_length]⟩

/-- Witness for C1 at the concrete two-by-two scenario of the spec. -/
theorem hom2_enumerates_cartesian_product_witness :
    Hom2FCartProd.run 10 (Hom2FCartProd.new [0, 1] [0, 1]) = cartProd2 [0, 1] [0, 1] ∧
      (Hom2FCartProd.run 10 (Hom2FCartProd.new [0, 1] [0, 1])).length =
        [0, 1].length * [0, 1].length :=
  hom2_enumerates_cartesian_product [0, 1] [0, 1] 10 (by decide)

/-- C2: Hom3FCartProd next enumerates exactly the reference lexicographic
three-fold Cartesian product, position 1 most significant and position 3
varying fastest, with exactly n1 * n2 * n3 tuples; in particular for sources
0..4, 0..3, 0..2 the first tuple is (0,0,0), the last is (3,2,1), and 24
tuples are produced. -/
theorem hom3_enumerates_cartesian_product :
    (∀ (α : Type) (l1 l2 l3 : List α) (fuel : Nat),
        hom3Measure (Hom3FCartProd.new l1 l2 l3) ≤ fuel →
          Hom3FCartProd.run fuel (Hom3FCartProd.new l1 l2 l3) = cartProd3 l1 l2 l3 ∧
            (Hom3FCartProd.run fuel (Hom3FCartProd.new l1 l2 l3)).length =
              l1.length * l2.length * l3.length) ∧
      (Hom3FCartProd.run 59 (Hom3FCartProd.new [0, 1, 2, 3] [0, 1, 2] [0, 1])).head? =
        some (0, 0, 0) ∧
      (Hom3FCartProd.run 59 (Hom3FCartProd.new [0, 1, 2, 3] [0, 1, 2] [0, 1])).getLast? =
        some (3, 2, 1) ∧
      (Hom3FCartProd.run 59 (Hom3FCartProd.new [0, 1, 2, 3] [0, 1, 2] [0, 1])).length =
        24 := by
  refine ⟨fun α l1 l2 l3 fuel h => ?_, by decide, by decide, by decide⟩
  have e := hom3_run_eq_remaining fuel (Hom3FCartProd.new l1 l2 l3) h
  rw [hom3_remaining_new] at e
  exact ⟨e, by rw [e, cartProd3_length]⟩

/-- Witness for C2 at a concrete two-by-two-by-two product. -/
theorem hom3_enumerates_cartesian_product_witness :
    Hom3FCartProd.run 30 (Hom3FCartProd.new [0, 1] [0, 1] [0, 1]) =
      cartProd3 [0, 1] [0, 1] [0, 1] ∧
      (Hom3FCartProd.run 30 (Hom3FCartProd.new [0, 1] [0, 1] [0, 1])).length =
        [0, 1].length * [0, 1].length * [0, 1].length :=
  hom3_enumerates_cartesian_product.1 Nat [0, 1] [0, 1] [0, 1] 30 (by decide)

/-- A none-returning Hom2FCartProd next call leaves a state whose next call
also returns none. -/
theorem hom2_next_none_step {α : Type} (s : Hom2FCartProd α)
    (h : (s.next).1 = none) : (((s.next).2).next).1 = none := by
  obtain ⟨c1, c2, o2⟩ := s
  cases c1 with
  | nil => simp [Hom2FCartProd.next]
  | cons e1 t1 =>
    cases c2 with
    | cons e2 t2 => simp [Hom2FCartProd.next] at h
    | nil =>
      cases t1 with
      | nil => simp [Hom2FCartProd.next]
      | cons e1s t1x =>
        cases o2 with
        | nil => cases t1x <;> simp [Hom2FCartProd.next]
        | cons f r => simp [Hom2FCartProd.next] at h

/-- A none-returning Hom3FCartProd next call leaves a state whose next call
also returns none. -/
theorem hom3_next_none_step {α : Type} (s : Hom3FCartProd α)
    (h : (s.next).1 = none) : (((s.next).2).next).1 = none := by
  obtain ⟨c1, c2, c3, o2, o3⟩ := s
  cases c1 with
  | nil => simp [Hom3FCartProd.next]
  | cons e1 t1 =>
    cases c2 with
    | nil => simp [Hom3FCartProd.next]
    | cons e2 t2 =>
      cases c3 with
      | cons e3 t3 => simp [Hom3FCartProd.next] at h
      | nil =>
        cases t2 with
        | cons e2s t2x =>
          cases o3 with
          | cons f3 r3 => simp [Hom3FCartProd.next] at h
          | nil =>
            cases t2x with
            | cons u v => simp [Hom3FCartProd.next]
            | nil =>
              cases t1 with
              | nil => simp [Hom3FCartProd.next]
              | cons e1s t1x =>
                cases o2 with
                | nil => simp [Hom3FCartProd.next]
                | cons f2 r2 => simp [Hom3FCartProd.next]
        | nil =>
          cases t1 with
          | nil => simp [Hom3FCartProd.next]
          | cons e1s t1x =>
            cases o2 with
            | nil => simp [Hom3FCartProd.next]
            | cons f2 r2 =>
              cases o3 with
              | cons f3 r3 => simp [Hom3FCartProd.next] at h
              | nil =>
                cases r2 with
                | cons u v => simp [Hom3FCartProd.next]
                | nil =>
                  cases t1x with
                  | nil => simp [Hom3FCartProd.next]
                  | cons w z => simp [Hom3FCartProd.next]

/-- C4: exhaustion is permanent: for every state of Hom2FCartProd or
Hom3FCartProd, once a next call returns none, every subsequent next call
(after any further number of calls) also returns none. -/
theorem exhaustion_is_permanent :
    (∀ (α : Type) (s : Hom2FCartProd α), (s.next).1 = none →
        ∀ k : Nat, ((Hom2FCartProd.skip k (s.next).2).next).1 = none) ∧
      (∀ (α : Type) (s : Hom3FCartProd α), (s.next).1 = none →
        ∀ k : Nat, ((Hom3FCartProd.skip k (s.next).2).next).1 = none) := by
  constructor
  · intro α s h k
    induction k generalizing s with
    | zero => exact hom2_next_none_step s h
    | succ n ih => exact ih (s.next).2 (hom2_next_none_step s h)
  · intro α s h k
    induction k generalizing s with
    | zero => exact hom3_next_none_step s h
    | succ n ih => exact ih (s.next).2 (hom3_next_none_step s h)

/-- Witness for C4: a concrete exhausted two-fold iterator stays exhausted
three calls later. -/
theorem exhaustion_is_permanent_witness :
    ((Hom2FCartProd.skip 3 ((Hom2FCartProd.new ([] : List Nat) [0]).next).2).next).1 =
      none :=
  exhaustion_is_permanent.1 Nat (Hom2FCartProd.new [] [0]) (by decide) 3

/-- C5: an empty factor empties the product: whichever source sequence is
empty at construction, the very first next call returns none, for both
arities and every position. -/
theorem empty_factor_immediate_exhaustion :
    (∀ (α : Type) (l2 : List α), ((Hom2FCartProd.new [] l2).next).1 = none) ∧
      (∀ (α : Type) (l1 : List α), ((Hom2FCartProd.new l1 []).next).1 = none) ∧
      (∀ (α : Type) (l2 l3 : List α), ((Hom3FCartProd.new [] l2 l3).next).1 = none) ∧
      (∀ (α : Type) (l1 l3 : List α), ((Hom3FCartProd.new l1 [] l3).next).1 = none) ∧
      (∀ (α : Type) (l1 l2 : List α), ((Hom3FCartProd.new l1 l2 []).next).1 = none) := by
  refine ⟨fun α l2 => rfl, fun α l1 => ?_, fun α l2 l3 => rfl, fun α l1 l3 => ?_,
    fun α l1 l2 => ?_⟩
  · cases l1 with
    | nil => rfl
    | cons a t => cases t <;> rfl
  · cases l1 with
    | nil => rfl
    | cons a t => simp [Hom3FCartProd.new, Hom3FCartProd.next]
  · cases l1 with
    | nil => rfl
    | cons a t1 =>
      cases l2 with
      | nil => simp [Hom3FCartProd.new, Hom3FCartProd.next]
      | cons b t2 =>
        cases t2 with
        | cons c t2x => simp [Hom3FCartProd.new, Hom3FCartProd.next]
        | nil =>
          cases t1 with
          | nil => rfl
          | cons a2 t1x => rfl

/-- Saturating multiplication applied to an already clamped product clamps
the full product. -/
theorem saturatingMul_min (x y : Nat) :
    saturatingMul (min x usizeMax) y = min (x * y) usizeMax := by
  rcases Nat.le_total x usizeMax with hx | hx
  · rw [Nat.min_eq_left hx]
    rfl
  · rw [Nat.min_eq_right hx]
    cases y with
    | zero => simp [saturatingMul]
    | succ m =>
      have h1 : usizeMax * 1 ≤ usizeMax * (m + 1) :=
        Nat.mul_le_mul_left usizeMax (by omega)
      have h2 : x * 1 ≤ x * (m + 1) := Nat.mul_le_mul_left x (by omega)
      rw [Nat.mul_one] at h1 h2
      unfold saturatingMul
      rw [Nat.min_eq_right h1, Nat.min_eq_right (le_trans hx h2)]

/-- C6: size_hint of both iterators is, at every state, the combination of
the positions' own hints; the combined lower bound is the saturating
(clamped) product of the lower bounds, and the combined upper bound is none
exactly when some position's upper bound is unknown or some intermediate
checked multiplication overflows usize; the computation is total. -/
theorem size_hint_saturating_checked_characterization :
    (∀ (α : Type) (s : Hom2FCartProd α),
        s.size_hint = hom2SizeHintOf (listSizeHint s.curr_it1) (listSizeHint s.curr_it2)) ∧
      (∀ (α : Type) (s : Hom3FCartProd α),
        s.size_hint = hom3SizeHintOf (listSizeHint s.curr_it1) (listSizeHint s.curr_it2)
          (listSizeHint s.curr_it3)) ∧
      (∀ (lo1 lo2 : Nat) (hi1 hi2 : Option Nat),
        (hom2SizeHintOf (lo1, hi1) (lo2, hi2)).1 = min (lo1 * lo2) usizeMax ∧
          ((hom2SizeHintOf (lo1, hi1) (lo2, hi2)).2 = none ↔
            hi1 = none ∨ hi2 = none ∨
              ∃ m1 m2, hi1 = some m1 ∧ hi2 = some m2 ∧ usizeMax < m1 * m2)) ∧
      (∀ (lo1 lo2 lo3 : Nat) (hi1 hi2 hi3 : Option Nat),
        (hom3SizeHintOf (lo1, hi1) (lo2, hi2) (lo3, hi3)).1 =
            min (lo1 * lo2 * lo3) usizeMax ∧
          ((hom3SizeHintOf (lo1, hi1) (lo2, hi2) (lo3, hi3)).2 = none ↔
            hi1 = none ∨ hi2 = none ∨ hi3 = none ∨
              ∃ m1 m2 m3, hi1 = some m1 ∧ hi2 = some m2 ∧ hi3 = some m3 ∧
                (usizeMax < m1 ∨ usizeMax < m1 * m2 ∨ usizeMax < m1 * m2 * m3))) := by
  refine ⟨fun α s => rfl, fun α s => rfl, fun lo1 lo2 hi1 hi2 => ⟨rfl, ?_⟩,
    fun lo1 lo2 lo3 hi1 hi2 hi3 => ⟨?_, ?_⟩⟩
  · rcases hi1 with _ | m1 <;> rcases hi2 with _ | m2 <;>
      simp [hom2SizeHintOf, checkedMul]
  · show saturatingMul (saturatingMul (saturatingMul 1 lo1) lo2) lo3 = _
    have e1 : saturatingMul 1 lo1 = min lo1 usizeMax := by
      simp [saturatingMul]
    rw [e1, saturatingMul_min, saturatingMul_min]
  · rcases hi1 with _ | m1 <;> rcases hi2 with _ | m2 <;> rcases hi3 with _ | m3 <;>
      simp [hom3SizeHintOf, checkedMul, Option.bind]
    by_cases h1 : m1 ≤ usizeMax
    · by_cases h2 : m1 * m2 ≤ usizeMax
      · by_cases h3 : m1 * m2 * m3 ≤ usizeMax <;> simp [h1, h2, h3] <;> omega
      · simp [h1, h2]
        omega
    · simp [h1]
      omega

/-- C3 is violated by the code: at the reachable state reached by one next
call on the two-by-two product, size_hint reports (2, some 2), yet 3 tuples
remain (the full origin rows still owed for the rest of cursor 1 are not
counted), so the true remaining count lies outside the reported interval
even though the upper bound is known. -/
theorem hom2_size_hint_unsound_after_one_step :
    (((Hom2FCartProd.new [0, 1] [0, 1]).next).2).size_hint = (2, some 2) ∧
      Hom2FCartProd.run 10 ((Hom2FCartProd.new [0, 1] [0, 1]).next).2 =
        [(0, 1), (1, 0), (1, 1)] ∧
      (Hom2FCartProd.run 10 ((Hom2FCartProd.new [0, 1] [0, 1]).next).2).length = 3 ∧
      ¬(3 ≤ 2) := by decide

/-- C7 as stated is false at a reachable state: at the freshly constructed
state whose first source is empty and whose second (last) source still
yields an item, next returns none instead of a tuple. -/
theorem plain_step_claim_counterexample :
    (Hom2FCartProd.new ([] : List Nat) [0]).curr_it2 = [0] ∧
      ((Hom2FCartProd.new ([] : List Nat) [0]).next).1 = none := by decide

/-- C7 amended: whenever next is called in a state where the last position's
cursor still yields an item and no earlier position's cursor is exhausted,
the call returns a tuple and leaves the remaining element sequences of all
earlier positions' cursors unchanged (they are only peeked, never consumed);
earlier cursors advance only on a carry. -/
theorem plain_step_frame_property :
    (∀ (α : Type) (s : Hom2FCartProd α), s.curr_it1 ≠ [] → s.curr_it2 ≠ [] →
        ((s.next).1).isSome = true ∧ (s.next).2.curr_it1 = s.curr_it1) ∧
      (∀ (α : Type) (s : Hom3FCartProd α),
        s.curr_it1 ≠ [] → s.curr_it2 ≠ [] → s.curr_it3 ≠ [] →
          ((s.next).1).isSome = true ∧ (s.next).2.curr_it1 = s.curr_it1 ∧
            (s.next).2.curr_it2 = s.curr_it2) := by
  constructor
  · intro α s h1 h2
    obtain ⟨c1, c2, o2⟩ := s
    cases c1 with
    | nil => exact absurd rfl h1
    | cons a t1 =>
      cases c2 with
      | nil => exact absurd rfl h2
      | cons b t2 => refine ⟨?_, ?_⟩ <;> simp [Hom2FCartProd.next]
  · intro α s h1 h2 h3
    obtain ⟨c1, c2, c3, o2, o3⟩ := s
    cases c1 with
    | nil => exact absurd rfl h1
    | cons e1 t1 =>
      cases c2 with
      | nil => exact absurd rfl h2
      | cons e2 t2 =>
        cases c3 with
        | nil => exact absurd rfl h3
        | cons e3 t3 => refine ⟨?_, ?_, ?_⟩ <;> simp [Hom3FCartProd.next]

/-- Witness for the amended C7 at a concrete mid-row state. -/
theorem plain_step_frame_property_witness :
    (((⟨[5, 6], [7], [7, 8]⟩ : Hom2FCartProd Nat).next).1).isSome = true ∧
      ((⟨[5, 6], [7], [7, 8]⟩ : Hom2FCartProd Nat).next).2.curr_it1 = [5, 6] :=
  plain_step_frame_property.1 Nat ⟨[5, 6], [7], [7, 8]⟩ (by decide) (by decide)

/-- C8: the first source is traversed once and never reset: every next call
leaves cursor 1 a suffix of what it was (its consumed prefix only grows and
no element is pulled twice), and once cursor 1 is exhausted, next returns
none and leaves the state untouched, so the iterator is permanently
exhausted. -/
theorem first_source_monotone_and_terminal :
    (∀ (α : Type) (s : Hom2FCartProd α),
        (s.next).2.curr_it1 <:+ s.curr_it1 ∧
          (s.curr_it1 = [] → (s.next).1 = none ∧ (s.next).2 = s)) ∧
      (∀ (α : Type) (s : Hom3FCartProd α),
        (s.next).2.curr_it1 <:+ s.curr_it1 ∧
          (s.curr_it1 = [] → (s.next).1 = none ∧ (s.next).2 = s)) := by
  constructor
  · intro α s
    obtain ⟨c1, c2, o2⟩ := s
    cases c1 with
    | nil => exact ⟨List.suffix_refl _, fun _ => ⟨rfl, rfl⟩⟩
    | cons e1 t1 =>
      refine ⟨?_, fun h => absurd h (List.cons_ne_nil _ _)⟩
      cases c2 with
      | cons e2 t2 => simp [Hom2FCartProd.next]
      | nil =>
        cases t1 with
        | nil => simp [Hom2FCartProd.next, List.nil_suffix]
        | cons e1s t1x =>
          cases o2 with
          | nil => simp [Hom2FCartProd.next, List.suffix_cons]
          | cons f r => simp [Hom2FCartProd.next, List.suffix_cons]
  · intro α s
    obtain ⟨c1, c2, c3, o2, o3⟩ := s
    cases c1 with
    | nil => exact ⟨List.suffix_refl _, fun _ => ⟨rfl, rfl⟩⟩
    | cons e1 t1 =>
      refine ⟨?_, fun h => absurd h (List.cons_ne_nil _ _)⟩
      cases c2 with
      | nil => simp [Hom3FCartProd.next]
      | cons e2 t2 =>
        cases c3 with
        | cons e3 t3 => simp [Hom3FCartProd.next]
        | nil =>
          cases t2 with
          | cons e2s t2x =>
            cases o3 with
            | nil => simp [Hom3FCartProd.next]
            | cons f3 r3 => simp [Hom3FCartProd.next]
          | nil =>
            cases t1 with
            | nil => simp [Hom3FCartProd.next, List.nil_suffix]
            | cons e1s t1x =>
              cases o2 with
              | nil => simp [Hom3FCartProd.next, List.suffix_cons]
              | cons f2 r2 =>
                cases o3 with
                | nil => simp [Hom3FCartProd.next, List.suffix_cons]
                | cons f3 r3 => simp [Hom3FCartProd.next, List.suffix_cons]

/-- Witness for C8: a concrete iterator with cursor 1 exhausted returns none
and is left untouched. -/
theorem first_source_monotone_and_terminal_witness :
    ((⟨[], [9], [9]⟩ : Hom2FCartProd Nat).next).1 = none :=
  ((first_source_monotone_and_terminal.1 Nat ⟨[], [9], [9]⟩).2 rfl).1

/-- C9: construction performs no enumeration: after new, every cursor and
every origin still holds the full element sequence of its source, and the
first emitted tuple (for nonempty sources) begins with every source's first
element. -/
theorem construction_no_enumeration :
    (∀ (α : Type) (l1 l2 : List α),
        (Hom2FCartProd.new l1 l2).curr_it1 = l1 ∧
          (Hom2FCartProd.new l1 l2).curr_it2 = l2 ∧
          (Hom2FCartProd.new l1 l2).orig_it2 = l2) ∧
      (∀ (α : Type) (l1 l2 l3 : List α),
        (Hom3FCartProd.new l1 l2 l3).curr_it1 = l1 ∧
          (Hom3FCartProd.new l1 l2 l3).curr_it2 = l2 ∧
          (Hom3FCartProd.new l1 l2 l3).curr_it3 = l3 ∧
          (Hom3FCartProd.new l1 l2 l3).orig_it2 = l2 ∧
          (Hom3FCartProd.new l1 l2 l3).orig_it3 = l3) ∧
      (∀ (α : Type) (a b : α) (t1 t2 : List α),
        ((Hom2FCartProd.new (a :: t1) (b :: t2)).next).1 = some (a, b)) ∧
      (∀ (α : Type) (a b c : α) (t1 t2 t3 : List α),
        ((Hom3FCartProd.new (a :: t1) (b :: t2) (c :: t3)).next).1 = some (a, b, c)) :=
  ⟨fun α l1 l2 => ⟨rfl, rfl, rfl⟩, fun α l1 l2 l3 => ⟨rfl, rfl, rfl, rfl, rfl⟩,
    fun α a b t1 t2 => by simp [Hom2FCartProd.new, Hom2FCartProd.next],
    fun α a b c t1 t2 t3 => by simp [Hom3FCartProd.new, Hom3FCartProd.next]⟩

/-- Size hint of a two-fold state with cursor 1 exhausted. -/
theorem hom2_hint_c1_nil {α : Type} (c2 o2 : List α) :
    (Hom2FCartProd.mk [] c2 o2).size_hint = (0, some 0) := by
  simp [Hom2FCartProd.size_hint, hom2SizeHintOf, listSizeHint, saturatingMul, checkedMul]

/-- Size hint of a two-fold state with cursor 2 exhausted. -/
theorem hom2_hint_c2_nil {α : Type} (c1 o2 : List α) :
    (Hom2FCartProd.mk c1 [] o2).size_hint = (0, some 0) := by
  simp [Hom2FCartProd.size_hint, hom2SizeHintOf, listSizeHint, saturatingMul, checkedMul]

/-- Size hint of a three-fold state with cursor 1 exhausted. -/
theorem hom3_hint_c1_nil {α : Type} (c2 c3 o2 o3 : List α) :
    (Hom3FCartProd.mk [] c2 c3 o2 o3).size_hint = (0, some 0) := by
  simp [Hom3FCartProd.size_hint, hom3SizeHintOf, listSizeHint, saturatingMul, checkedMul]

/-- Size hint of a three-fold state with cursor 2 exhausted, when cursor 1
is short enough for the first checked product not to overflow. -/
theorem hom3_hint_c2_nil {α : Type} (c1 c3 o2 o3 : List α) (h1 : c1.length ≤ usizeMax) :
    (Hom3FCartProd.mk c1 [] c3 o2 o3).size_hint = (0, some 0) := by
  simp [Hom3FCartProd.size_hint, hom3SizeHintOf, listSizeHint, saturatingMul,
    checkedMul, h1]

/-- Size hint of a three-fold state with cursor 3 exhausted, when cursors 1
and 2 are short enough for the checked products not to overflow. -/
theorem hom3_hint_c3_nil {α : Type} (c1 c2 o2 o3 : List α) (h1 : c1.length ≤ usizeMax)
    (h2 : c1.length * c2.length ≤ usizeMax) :
    (Hom3FCartProd.mk c1 c2 [] o2 o3).size_hint = (0, some 0) := by
  simp [Hom3FCartProd.size_hint, hom3SizeHintOf, listSizeHint, saturatingMul,
    checkedMul, h1, h2]

/-- Cursor lengths small enough that the checked multiplications feeding a
known upper bound cannot overflow usize. -/
def hom3HintBounded {α : Type} (s : Hom3FCartProd α) : Prop :=
  s.curr_it1.length ≤ usizeMax ∧
    s.curr_it1.length * s.curr_it2.length ≤ usizeMax ∧
    s.curr_it1.length * s.orig_it2.length ≤ usizeMax

/-- A next call preserves the no-overflow bounds: cursor 1 only shrinks and
cursor 2 is only ever shortened, emptied, or reset to origin 2. -/
theorem hom3_bounded_step {α : Type} (s : Hom3FCartProd α) (hb : hom3HintBounded s) :
    hom3HintBounded (s.next).2 := by
  obtain ⟨c1, c2, c3, o2, o3⟩ := s
  cases c1 with
  | nil => exact hb
  | cons e1 t1 =>
    cases c2 with
    | nil =>
      simp only [Hom3FCartProd.next]
      exact hb
    | cons e2 t2 =>
      cases c3 with
      | cons e3 t3 =>
        simp only [Hom3FCartProd.next, hom3HintBounded, List.length_cons,
          List.length_nil] at hb ⊢
        omega
      | nil =>
        cases t2 with
        | cons e2s t2x =>
          have hmono : (t1.length + 1) * (t2x.length + 1) ≤
              (t1.length + 1) * (t2x.length + 1 + 1) :=
            Nat.mul_le_mul_left (t1.length + 1) (by omega)
          cases o3 with
          | nil =>
            simp only [Hom3FCartProd.next, hom3HintBounded, List.length_cons,
              List.length_nil] at hb ⊢
            omega
          | cons f3 r3 =>
            simp only [Hom3FCartProd.next, hom3HintBounded, List.length_cons,
              List.length_nil] at hb ⊢
            omega
        | nil =>
          cases t1 with
          | nil =>
            simp only [Hom3FCartProd.next, hom3HintBounded, List.length_cons,
              List.length_nil] at hb ⊢
            omega
          | cons e1s t1x =>
            cases o2 with
            | nil =>
              simp only [Hom3FCartProd.next, hom3HintBounded, List.length_cons,
                List.length_nil] at hb ⊢
              omega
            | cons f2 r2 =>
              have hmono : (t1x.length + 1) * (r2.length + 1) ≤
                  (t1x.length + 1 + 1) * (r2.length + 1) :=
                Nat.mul_le_mul_right (r2.length + 1) (by omega)
              cases o3 with
              | nil =>
                simp only [Hom3FCartProd.next, hom3HintBounded, List.length_cons,
                  List.length_nil] at hb ⊢
                omega
              | cons f3 r3 =>
                simp only [Hom3FCartProd.next, hom3HintBounded, List.length_cons,
                  List.length_nil] at hb ⊢
                omega

/-- After a none-returning Hom2FCartProd next call, size_hint is exactly
(0, some 0): whichever path returned none leaves cursor 1 or cursor 2
exhausted, and a zero factor makes both products zero without overflow. -/
theorem hom2_next_none_hint {α : Type} (s : Hom2FCartProd α)
    (h : (s.next).1 = none) : ((s.next).2).size_hint = (0, some 0) := by
  obtain ⟨c1, c2, o2⟩ := s
  cases c1 with
  | nil => exact hom2_hint_c1_nil c2 o2
  | cons e1 t1 =>
    cases c2 with
    | cons e2 t2 => simp [Hom2FCartProd.next] at h
    | nil =>
      cases t1 with
      | nil =>
        simp only [Hom2FCartProd.next]
        exact hom2_hint_c1_nil [] o2
      | cons e1s t1x =>
        cases o2 with
        | nil =>
          simp only [Hom2FCartProd.next]
          exact hom2_hint_c2_nil (e1s :: t1x) []
        | cons f r => simp [Hom2FCartProd.next] at h

/-- After a none-returning Hom3FCartProd next call on a hint-bounded state,
size_hint is exactly (0, some 0). -/
theorem hom3_next_none_hint {α : Type} (s : Hom3FCartProd α) (hb : hom3HintBounded s)
    (h : (s.next).1 = none) : ((s.next).2).size_hint = (0, some 0) := by
  obtain ⟨c1, c2, c3, o2, o3⟩ := s
  obtain ⟨hb1, hb2, hb3⟩ := hb
  cases c1 with
  | nil => exact hom3_hint_c1_nil c2 c3 o2 o3
  | cons e1 t1 =>
    cases c2 with
    | nil =>
      simp only [Hom3FCartProd.next]
      exact hom3_hint_c2_nil (e1 :: t1) c3 o2 o3 hb1
    | cons e2 t2 =>
      cases c3 with
      | cons e3 t3 => simp [Hom3FCartProd.next] at h
      | nil =>
        cases t2 with
        | cons e2s t2x =>
          cases o3 with
          | cons f3 r3 => simp [Hom3FCartProd.next] at h
          | nil =>
            simp only [Hom3FCartProd.next]
            refine hom3_hint_c3_nil (e1 :: t1) (e2s :: t2x) o2 [] hb1 ?_
            have hmono : (e1 :: t1).length * (e2s :: t2x).length ≤
                (e1 :: t1).length * (e2 :: e2s :: t2x).length :=
              Nat.mul_le_mul_left (e1 :: t1).length (by simp)
            exact le_trans hmono hb2
        | nil =>
          cases t1 with
          | nil =>
            simp only [Hom3FCartProd.next]
            exact hom3_hint_c1_nil [] [] o2 o3
          | cons e1s t1x =>
            cases o2 with
            | nil =>
              simp only [Hom3FCartProd.next]
              refine hom3_hint_c2_nil (e1s :: t1x) o3 [] o3 ?_
              simp only [List.length_cons] at hb1 ⊢
              omega
            | cons f2 r2 =>
              cases o3 with
              | cons f3 r3 => simp [Hom3FCartProd.next] at h
              | nil =>
                simp only [Hom3FCartProd.next]
                refine hom3_hint_c3_nil (e1s :: t1x) (f2 :: r2) (f2 :: r2) [] ?_ ?_
                · simp only [List.length_cons] at hb1 ⊢
                  omega
                · have hmono : (e1s :: t1x).length * (f2 :: r2).length ≤
                      (e1 :: e1s :: t1x).length * (f2 :: r2).length :=
                    Nat.mul_le_mul_right (f2 :: r2).length (by simp)
                  exact le_trans hmono hb3

/-- With sources of n+1 and n+2 elements whose pairwise count product
overflows usize and an empty third source, the first next call returns none
but size_hint then reports an unknown upper bound, not some 0. -/
theorem hom3_hint_after_none_overflow (n : Nat) (h1 : n + 1 ≤ usizeMax)
    (h2 : usizeMax < (n + 1) * (n + 1)) :
    ((Hom3FCartProd.new (List.replicate (n + 1) 0) (List.replicate (n + 1 + 1) 0)
          ([] : List Nat)).next).1 = none ∧
      (((Hom3FCartProd.new (List.replicate (n + 1) 0) (List.replicate (n + 1 + 1) 0)
            ([] : List Nat)).next).2).size_hint ≠ (0, some 0) := by
  rw [List.replicate_succ, List.replicate_succ, List.replicate_succ]
  constructor
  · simp [Hom3FCartProd.new, Hom3FCartProd.next]
  · simp only [Hom3FCartProd.new, Hom3FCartProd.next, Hom3FCartProd.size_hint,
      hom3SizeHintOf, listSizeHint, List.length_cons, List.length_replicate,
      List.foldl, checkedMul]
    have hp : (1 : Nat) * (n + 1) ≤ usizeMax := by simpa using h1
    have hq : ¬(1 * (n + 1) * (n + 1) ≤ usizeMax) := by
      rw [Nat.one_mul]
      omega
    rw [Option.some_bind, if_pos hp, Option.some_bind, if_neg hq, Option.none_bind]
    simp

/-- C10 as stated is false: with a first source of 2 to the 32 elements, a
second source of one element more, and an empty third source, the very
first next call on Hom3FCartProd returns none, yet the subsequent size_hint
is not (0, some 0): the checked product of the two huge remaining counts
overflows usize, so the upper bound degrades to unknown. -/
theorem post_exhaustion_hint_counterexample :
    ((Hom3FCartProd.new (List.replicate (2 ^ 32) 0) (List.replicate (2 ^ 32 + 1) 0)
          ([] : List Nat)).next).1 = none ∧
      (((Hom3FCartProd.new (List.replicate (2 ^ 32) 0) (List.replicate (2 ^ 32 + 1) 0)
            ([] : List Nat)).next).2).size_hint ≠ (0, some 0) := by
  have e : (2 ^ 32 : Nat) = 2 ^ 32 - 1 + 1 := by norm_num
  rw [e]
  exact hom3_hint_after_none_overflow (2 ^ 32 - 1) (by norm_num [usizeMax])
    (by norm_num [usizeMax])

/-- C10 amended: once next returns none, every subsequent size_hint call
returns exactly (0, some 0) — unconditionally for Hom2FCartProd, and for
Hom3FCartProd whenever the cursor lengths are small enough that the checked
upper-bound products reaching the zero factor cannot overflow usize. -/
theorem post_exhaustion_size_hint_zero :
    (∀ (α : Type) (s : Hom2FCartProd α), (s.next).1 = none →
        ∀ k : Nat, (Hom2FCartProd.skip k (s.next).2).size_hint = (0, some 0)) ∧
      (∀ (α : Type) (s : Hom3FCartProd α), hom3HintBounded s → (s.next).1 = none →
        ∀ k : Nat, (Hom3FCartProd.skip k (s.next).2).size_hint = (0, some 0)) := by
  constructor
  · intro α s h k
    induction k generalizing s with
    | zero => exact hom2_next_none_hint s h
    | succ n ih => exact ih (s.next).2 (hom2_next_none_step s h)
  · intro α s hb h k
    induction k generalizing s with
    | zero => exact hom3_next_none_hint s hb h
    | succ n ih => exact ih (s.next).2 (hom3_bounded_step s hb) (hom3_next_none_step s h)

/-- Witness for the amended C10 at a concrete exhausted iterator. -/
theorem post_exhaustion_size_hint_zero_witness :
    (Hom2FCartProd.skip 2 ((Hom2FCartProd.new [0] ([] : List Nat)).next).2).size_hint =
      (0, some 0) :=
  post_exhaustion_size_hint_zero.1 Nat (Hom2FCartProd.new [0] []) (by decide) 2
